import Mathlib

/-!
Verification of the neohub websocket client (src/lib.rs).

The development shallowly embeds the client's protocol logic:
a JSON value model (serde_json::Value with its default ordered map),
a compact serializer matching serde_json::to_string, a JSON text
parser (restricted to integer numerals, the only numbers this
protocol uses), the outbound double-envelope construction of
Client::raw_message_inner, the inbound envelope validation, the
command serialisation helpers, Client::identify, and a timing model
for the tokio timeout wrapper in Client::raw_message.
-/

namespace Neohub

/-- JSON values as modelled by serde_json::Value.  Objects are
association lists; serde_json's default map is a BTreeMap, so the
objects this client builds are listed in sorted key order. -/
inductive Json where
  | null : Json
  | bool (b : Bool) : Json
  | num (n : Int) : Json
  | str (s : String) : Json
  | arr (elems : List Json) : Json
  | obj (fields : List (String × Json)) : Json

/-- Hex digit characters as emitted by serde_json (lowercase). -/
def hexDig (n : Nat) : Char :=
  if n < 10 then Char.ofNat (48 + n) else Char.ofNat (87 + n)

/-- serde_json's escaping of one character inside a JSON string:
quote, backslash, the short control escapes, and \u00XX for the
remaining control characters; all other characters are literal. -/
def escapeChar (c : Char) : List Char :=
  if c = '"' then ['\\', '"']
  else if c = '\\' then ['\\', '\\']
  else if c = Char.ofNat 8 then ['\\', 'b']
  else if c = Char.ofNat 12 then ['\\', 'f']
  else if c = Char.ofNat 10 then ['\\', 'n']
  else if c = Char.ofNat 13 then ['\\', 'r']
  else if c = Char.ofNat 9 then ['\\', 't']
  else if c.toNat < 32 then
    ['\\', 'u', '0', '0', hexDig (c.toNat / 16), hexDig (c.toNat % 16)]
  else [c]

def escChars : List Char → List Char
  | [] => []
  | c :: cs => escapeChar c ++ escChars cs

def digitCh (d : Nat) : Char := Char.ofNat (48 + d)

/-- Decimal rendering of a natural number (as serde_json/itoa emit it). -/
def renderNat (m : Nat) : List Char :=
  if _h : m < 10 then [digitCh m]
  else renderNat (m / 10) ++ [digitCh (m % 10)]
termination_by m
decreasing_by exact Nat.div_lt_self (by omega) (by omega)

/-- Decimal rendering of an integer. -/
def renderInt (n : Int) : List Char :=
  if n < 0 then '-' :: renderNat (-n).toNat else renderNat n.toNat

mutual

/-- Compact JSON serialisation, as serde_json::to_string produces it:
no whitespace, double-quoted strings with serde's escaping. -/
def Json.render : Json → List Char
  | .null => 'n' :: ['u', 'l', 'l']
  | .bool b => if b then 't' :: ['r', 'u', 'e'] else 'f' :: ['a', 'l', 's', 'e']
  | .num n => renderInt n
  | .str s => '"' :: (escChars s.data ++ ['"'])
  | .arr es => '[' :: (Json.renderArr es ++ [']'])
  | .obj fs => '{' :: (Json.renderObj fs ++ ['}'])

def Json.renderArr : List Json → List Char
  | [] => []
  | [e] => Json.render e
  | e :: es => Json.render e ++ ',' :: Json.renderArr es

def Json.renderObj : List (String × Json) → List Char
  | [] => []
  | [(k, v)] => '"' :: (escChars k.data ++ '"' :: ':' :: Json.render v)
  | (k, v) :: fs =>
    '"' :: (escChars k.data ++ '"' :: ':' :: (Json.render v ++ ',' :: Json.renderObj fs))

end

/-! ### JSON text parser

A parser for the JSON texts this protocol exchanges (numbers restricted
to integer numerals, the only numerals the protocol uses; whitespace,
strings with the full escape grammar, arrays, objects, literals). -/

def isWs (c : Char) : Bool :=
  (c == ' ') || (c == Char.ofNat 9) || (c == Char.ofNat 10) || (c == Char.ofNat 13)

def skipWs : List Char → List Char
  | [] => []
  | c :: l => if isWs c then skipWs l else c :: l

def hexVal (c : Char) : Option Nat :=
  if 48 ≤ c.toNat ∧ c.toNat ≤ 57 then some (c.toNat - 48)
  else if 97 ≤ c.toNat ∧ c.toNat ≤ 102 then some (c.toNat - 87)
  else if 65 ≤ c.toNat ∧ c.toNat ≤ 70 then some (c.toNat - 55)
  else none

/-- Parse the body of a JSON string after the opening quote, returning
the unescaped characters and the text after the closing quote.  The
fuel only makes totality evident; it is always instantiated with more
than the input length, and every step consumes at least one character. -/
def parseStringBody : Nat → List Char → Option (List Char × List Char)
  | 0, _ => none
  | fuel + 1, input =>
    match input with
    | [] => none
    | c :: rest =>
      if c = '"' then some ([], rest)
      else if c = '\\' then
        match rest with
        | [] => none
        | e :: rest2 =>
          if e = '"' ∨ e = '\\' ∨ e = '/' then
            (parseStringBody fuel rest2).map fun p => (e :: p.1, p.2)
          else if e = 'b' then (parseStringBody fuel rest2).map fun p => (Char.ofNat 8 :: p.1, p.2)
          else if e = 'f' then (parseStringBody fuel rest2).map fun p => (Char.ofNat 12 :: p.1, p.2)
          else if e = 'n' then (parseStringBody fuel rest2).map fun p => (Char.ofNat 10 :: p.1, p.2)
          else if e = 'r' then (parseStringBody fuel rest2).map fun p => (Char.ofNat 13 :: p.1, p.2)
          else if e = 't' then (parseStringBody fuel rest2).map fun p => (Char.ofNat 9 :: p.1, p.2)
          else if e = 'u' then
            match rest2 with
            | a :: b :: c2 :: d :: rest3 =>
              match hexVal a, hexVal b, hexVal c2, hexVal d with
              | some ha, some hb, some hc, some hd =>
                let n := ((ha * 16 + hb) * 16 + hc) * 16 + hd
                if n < 55296 ∨ 57343 < n then
                  (parseStringBody fuel rest3).map fun p => (Char.ofNat n :: p.1, p.2)
                else if n ≤ 56319 then
                  match rest3 with
                  | b1 :: b2 :: a2 :: b3 :: c3 :: d2 :: rest4 =>
                    if b1 = '\\' ∧ b2 = 'u' then
                      match hexVal a2, hexVal b3, hexVal c3, hexVal d2 with
                      | some h1, some h2, some h3, some h4 =>
                        let m := ((h1 * 16 + h2) * 16 + h3) * 16 + h4
                        if 56320 ≤ m ∧ m ≤ 57343 then
                          (parseStringBody fuel rest4).map fun p =>
                            (Char.ofNat (65536 + (n - 55296) * 1024 + (m - 56320)) :: p.1, p.2)
                        else none
                      | _, _, _, _ => none
                    else none
                  | _ => none
                else none
              | _, _, _, _ => none
            | _ => none
          else none
      else if c.toNat < 32 then none
      else (parseStringBody fuel rest).map fun p => (c :: p.1, p.2)

def headIsDigit : List Char → Bool
  | c :: _ => c.isDigit
  | [] => false

/-- Greedily consume decimal digits, accumulating their value. -/
def parseDigitsAux : Nat → List Char → Nat × List Char
  | acc, [] => (acc, [])
  | acc, c :: rest =>
    if c.isDigit then parseDigitsAux (acc * 10 + (c.toNat - 48)) rest
    else (acc, c :: rest)

/-- Parse an integer JSON numeral (optional minus sign, no leading zeros). -/
def parseNumBody : List Char → Option (Int × List Char)
  | [] => none
  | c :: rest =>
    if c = '-' then
      match rest with
      | [] => none
      | d :: rest2 =>
        if d.isDigit then
          if d = '0' && headIsDigit rest2 then none
          else
            let p := parseDigitsAux 0 (d :: rest2)
            some (-(p.1 : Int), p.2)
        else none
    else if c.isDigit then
      if c = '0' && headIsDigit rest then none
      else
        let p := parseDigitsAux 0 (c :: rest)
        some ((p.1 : Int), p.2)
    else none

mutual

/-- Fueled JSON value parser; the fuel bounds the nesting of recursive
parse steps and is instantiated large enough for the whole input. -/
def parseValue : Nat → List Char → Option (Json × List Char)
  | 0, _ => none
  | fuel + 1, input =>
    match skipWs input with
    | [] => none
    | c :: r =>
      if c = 'n' then
        match r with
        | 'u' :: 'l' :: 'l' :: r2 => some (.null, r2)
        | _ => none
      else if c = 't' then
        match r with
        | 'r' :: 'u' :: 'e' :: r2 => some (.bool true, r2)
        | _ => none
      else if c = 'f' then
        match r with
        | 'a' :: 'l' :: 's' :: 'e' :: r2 => some (.bool false, r2)
        | _ => none
      else if c = '"' then
        (parseStringBody (r.length + 1) r).map fun p => (Json.str ⟨p.1⟩, p.2)
      else if c = '[' then
        match skipWs r with
        | ']' :: r2 => some (.arr [], r2)
        | r2 => (parseElems fuel r2).map fun p => (Json.arr p.1, p.2)
      else if c = '{' then
        match skipWs r with
        | '}' :: r2 => some (.obj [], r2)
        | r2 => (parseFields fuel r2).map fun p => (Json.obj p.1, p.2)
      else if c = '-' ∨ c.isDigit then
        (parseNumBody (c :: r)).map fun p => (Json.num p.1, p.2)
      else none

/-- Parse the elements of a non-empty array, consuming the closing bracket. -/
def parseElems : Nat → List Char → Option (List Json × List Char)
  | 0, _ => none
  | fuel + 1, input =>
    match parseValue fuel input with
    | none => none
    | some (v, rest) =>
      match skipWs rest with
      | ',' :: rest2 => (parseElems fuel rest2).map fun p => (v :: p.1, p.2)
      | ']' :: rest2 => some ([v], rest2)
      | _ => none

/-- Parse the fields of a non-empty object, consuming the closing brace. -/
def parseFields : Nat → List Char → Option (List (String × Json) × List Char)
  | 0, _ => none
  | fuel + 1, input =>
    match input with
    | '"' :: rest =>
      match parseStringBody (rest.length + 1) rest with
      | none => none
      | some (key, rest2) =>
        match skipWs rest2 with
        | ':' :: rest3 =>
          match parseValue fuel rest3 with
          | none => none
          | some (v, rest4) =>
            match skipWs rest4 with
            | ',' :: rest5 => (parseFields fuel (skipWs rest5)).map fun p => ((⟨key⟩, v) :: p.1, p.2)
            | '}' :: rest5 => some ([(⟨key⟩, v)], rest5)
            | _ => none
        | _ => none
    | _ => none

end

/-- Parse a complete JSON document, requiring only whitespace after the
value (serde_json::from_str's end-of-input check). -/
def parseJson (s : String) : Option Json :=
  match parseValue (s.data.length + 1) s.data with
  | some (v, rest) => if skipWs rest = [] then some v else none
  | none => none

/-! ### Round-trip lemmas: parsing recovers what the serializer wrote -/

lemma mk_data (l : List Char) : (String.mk l).data = l := rfl

lemma hexVal_hexDig : ∀ n, n < 16 → hexVal (hexDig n) = some n := by decide

lemma digitCh_isDigit : ∀ d, d < 10 → (digitCh d).isDigit = true := by decide

lemma digitCh_toNat : ∀ d, d < 10 → (digitCh d).toNat = 48 + d := by decide

lemma digitCh_zero : ∀ d, d < 10 → digitCh d = '0' → d = 0 := by decide

lemma isDigit_ne_minus (c : Char) (h : c.isDigit = true) : c ≠ '-' := by
  intro he; subst he; simp at h

lemma escChars_length (cs : List Char) : cs.length ≤ (escChars cs).length := by
  induction cs with
  | nil => simp [escChars]
  | cons c cs ih =>
    rw [escChars, List.length_append]
    have : 1 ≤ (escapeChar c).length := by
      unfold escapeChar
      repeat' split
      all_goals simp
    simp only [List.length_cons]
    omega

/-- Parsing a serde-escaped string body consumes exactly the escaped
characters and the closing quote, recovering the original characters,
for any fuel exceeding the number of original characters. -/
theorem parseStringBody_escChars (cs : List Char) :
    ∀ (f : Nat) (rest : List Char), cs.length < f →
      parseStringBody f (escChars cs ++ '"' :: rest) = some (cs, rest) := by
  induction cs with
  | nil =>
    intro f rest h
    cases f with
    | zero => omega
    | succ f => rfl
  | cons c cs ih =>
    intro f rest h
    cases f with
    | zero => omega
    | succ f =>
      have hlen : cs.length < f := by
        simp only [List.length_cons] at h; omega
      have ihf := ih f rest hlen
      rw [escChars, List.append_assoc]
      by_cases h1 : c = '"'
      · subst h1; simp [escapeChar, parseStringBody, ihf]
      · by_cases h2 : c = '\\'
        · subst h2; simp [escapeChar, parseStringBody, ihf]
        · by_cases h3 : c = Char.ofNat 8
          · subst h3; simp [escapeChar, parseStringBody, ihf]
          · by_cases h4 : c = Char.ofNat 12
            · subst h4; simp [escapeChar, parseStringBody, ihf]
            · by_cases h5 : c = Char.ofNat 10
              · subst h5; simp [escapeChar, parseStringBody, ihf]
              · by_cases h6 : c = Char.ofNat 13
                · subst h6; simp [escapeChar, parseStringBody, ihf]
                · by_cases h7 : c = Char.ofNat 9
                  · subst h7; simp [escapeChar, parseStringBody, ihf]
                  · by_cases h8 : c.toNat < 32
                    · have ha := hexVal_hexDig (c.toNat / 16) (by omega)
                      have hb := hexVal_hexDig (c.toNat % 16) (by omega)
                      have h0 : hexVal '0' = some 0 := by decide
                      have hmod : c.toNat / 16 * 16 + c.toNat % 16 = c.toNat := by omega
                      have hmod2 : 16 * (c.toNat / 16) + c.toNat % 16 = c.toNat := by omega
                      have hlt : c.toNat < 55296 := by omega
                      simp only [escapeChar, h1, h2, h3, h4, h5, h6, h7, if_neg, if_pos h8,
                        ite_false, ite_true, List.cons_append, List.nil_append]
                      simp [parseStringBody, h0, ha, hb, hmod, hmod2, hlt, ihf,
                        Char.ofNat_toNat]
                    · simp only [escapeChar, h1, h2, h3, h4, h5, h6, h7, h8,
                        ite_false, List.cons_append, List.nil_append]
                      simp [parseStringBody, h1, h2, h8, ihf]

lemma parseDigitsAux_stop (a : Nat) (rest : List Char) (h : headIsDigit rest = false) :
    parseDigitsAux a rest = (a, rest) := by
  cases rest with
  | nil => rfl
  | cons c l => simp only [headIsDigit] at h; simp [parseDigitsAux, h]

theorem renderNat_spec (m : Nat) :
    ∃ k ds, k < 10 ∧ renderNat m = digitCh k :: ds ∧
      (k = 0 → m = 0) ∧ (m = 0 → ds = []) := by
  induction m using Nat.strong_induction_on with
  | _ m ih =>
    by_cases h : m < 10
    · refine ⟨m, [], h, ?_, fun h0 => h0, fun _ => rfl⟩
      rw [renderNat]; simp [h]
    · obtain ⟨k, ds, hk, hd, hzero, _⟩ := ih (m / 10) (Nat.div_lt_self (by omega) (by omega))
      refine ⟨k, ds ++ [digitCh (m % 10)], hk, ?_, ?_, fun h0 => absurd h0 (by omega)⟩
      · rw [renderNat]; simp [h, hd]
      · intro h0; have := hzero h0; omega

theorem parseDigitsAux_renderNat (acc m : Nat) (rest : List Char) :
    parseDigitsAux acc (renderNat m ++ rest) =
      parseDigitsAux (acc * 10 ^ (renderNat m).length + m) rest := by
  induction m using Nat.strong_induction_on generalizing acc rest with
  | _ m ih =>
    by_cases h : m < 10
    · rw [renderNat]; simp only [h, dite_true, List.cons_append, List.nil_append,
        List.length_cons, List.length_nil]
      rw [parseDigitsAux]
      simp [digitCh_isDigit m h, digitCh_toNat m h]
    · rw [renderNat]; simp only [h, dite_false]
      rw [List.append_assoc, List.singleton_append,
        ih (m / 10) (Nat.div_lt_self (by omega) (by omega))]
      rw [parseDigitsAux]
      have h10 : m % 10 < 10 := by omega
      simp only [digitCh_isDigit _ h10, if_pos, digitCh_toNat _ h10, List.length_append,
        List.length_cons, List.length_nil]
      congr 1
      have hpow : 10 ^ ((renderNat (m / 10)).length + 1) =
          10 ^ (renderNat (m / 10)).length * 10 := pow_succ 10 _
      rw [hpow]
      have := Nat.div_add_mod m 10
      ring_nf
      omega

theorem parseNumBody_renderInt (n : Int) (rest : List Char) (h : headIsDigit rest = false) :
    parseNumBody (renderInt n ++ rest) = some (n, rest) := by
  by_cases hn : n < 0
  · rw [renderInt, if_pos hn]
    obtain ⟨k, ds, hk, hd, hzero, hnil⟩ := renderNat_spec (-n).toNat
    have hdig := digitCh_isDigit k hk
    have hm : 1 ≤ (-n).toNat := by omega
    rw [List.cons_append, hd, List.cons_append]
    simp only [parseNumBody, if_pos rfl, hdig, ite_true]
    have hz : (digitCh k = '0' && headIsDigit (ds ++ rest)) = false := by
      by_cases hd0 : digitCh k = '0'
      · exact absurd (hzero (digitCh_zero k hk hd0)) (by omega)
      · simp [hd0]
    rw [hz]
    simp only [Bool.false_eq_true, if_false]
    rw [← List.cons_append, ← hd, parseDigitsAux_renderNat, parseDigitsAux_stop _ _ h]
    simp only [zero_mul, zero_add, Option.some.injEq, Prod.mk.injEq,
      eq_self_iff_true, and_true]
    omega
  · rw [renderInt, if_neg hn]
    obtain ⟨k, ds, hk, hd, hzero, hnil⟩ := renderNat_spec n.toNat
    have hdig := digitCh_isDigit k hk
    rw [hd, List.cons_append]
    simp only [parseNumBody, if_neg (isDigit_ne_minus (digitCh k) hdig), hdig, ite_true]
    have hz : (digitCh k = '0' && headIsDigit (ds ++ rest)) = false := by
      by_cases hd0 : digitCh k = '0'
      · have h0 := hzero (digitCh_zero k hk hd0)
        have hds : ds = [] := hnil h0
        simp [hd0, hds, h]
      · simp [hd0]
    rw [hz]
    simp only [Bool.false_eq_true, if_false]
    rw [← List.cons_append, ← hd, parseDigitsAux_renderNat, parseDigitsAux_stop _ _ h]
    simp only [zero_mul, zero_add, Option.some.injEq, Prod.mk.injEq,
      eq_self_iff_true, and_true]
    omega

/-! ### Fuel accounting for the value parser -/

mutual

/-- Fuel consumed by the parser on a value: one unit per parseValue,
parseElems or parseFields call. -/
def Json.cost : Json → Nat
  | .null => 1
  | .bool _ => 1
  | .num _ => 1
  | .str _ => 1
  | .arr es => 1 + Json.costList es
  | .obj fs => 1 + Json.costFields fs

def Json.costList : List Json → Nat
  | [] => 0
  | e :: es => 1 + Json.cost e + Json.costList es

def Json.costFields : List (String × Json) → Nat
  | [] => 0
  | kv :: fs => 1 + Json.cost kv.2 + Json.costFields fs

end

def Json.isNum : Json → Bool
  | .num _ => true
  | _ => false

lemma Json.cost_pos (v : Json) : 1 ≤ v.cost := by
  cases v <;> simp [Json.cost]

lemma Json.costList_pos (es : List Json) (h : es ≠ []) : 1 ≤ Json.costList es := by
  cases es with
  | nil => exact absurd rfl h
  | cons e es => simp [Json.costList]; omega

lemma Json.costFields_pos (fs : List (String × Json)) (h : fs ≠ []) :
    1 ≤ Json.costFields fs := by
  cases fs with
  | nil => exact absurd rfl h
  | cons kv fs => simp [Json.costFields]; omega

/-! ### Head characters of rendered values -/

lemma digitCh_facts : ∀ k, k < 10 →
    isWs (digitCh k) = false ∧ digitCh k ≠ 'n' ∧ digitCh k ≠ 't' ∧ digitCh k ≠ 'f' ∧
    digitCh k ≠ '"' ∧ digitCh k ≠ '[' ∧ digitCh k ≠ '{' ∧
    digitCh k ≠ ']' ∧ digitCh k ≠ '}' ∧ digitCh k ≠ ',' := by decide

/-- Every rendered JSON value starts with a character that is not
whitespace and not one of the structural delimiters. -/
lemma render_head (e : Json) :
    ∃ c l, Json.render e = c :: l ∧ isWs c = false ∧
      c ≠ ']' ∧ c ≠ '}' ∧ c ≠ ',' := by
  cases e with
  | null =>
    exact ⟨'n', ['u', 'l', 'l'], by simp [Json.render], by decide, by decide, by decide, by decide⟩
  | bool b =>
    cases b with
    | true =>
      exact ⟨'t', ['r', 'u', 'e'], by simp [Json.render],
        by decide, by decide, by decide, by decide⟩
    | false =>
      exact ⟨'f', ['a', 'l', 's', 'e'], by simp [Json.render],
        by decide, by decide, by decide, by decide⟩
  | str s =>
    exact ⟨'"', escChars s.data ++ ['"'], by simp [Json.render],
      by decide, by decide, by decide, by decide⟩
  | arr es =>
    exact ⟨'[', Json.renderArr es ++ [']'], by simp [Json.render],
      by decide, by decide, by decide, by decide⟩
  | obj fs =>
    exact ⟨'{', Json.renderObj fs ++ ['}'], by simp [Json.render],
      by decide, by decide, by decide, by decide⟩
  | num n =>
    rw [Json.render, renderInt]
    by_cases hn : n < 0
    · exact ⟨'-', renderNat (-n).toNat, by rw [if_pos hn], by decide, by decide, by decide,
        by decide⟩
    · obtain ⟨k, ds, hk, hd, _, _⟩ := renderNat_spec n.toNat
      obtain ⟨w1, _, _, _, _, _, _, w8, w9, w10⟩ := digitCh_facts k hk
      exact ⟨digitCh k, ds, by rw [if_neg hn, hd], w1, w8, w9, w10⟩

/-! ### Definitional step lemmas for the fueled parser -/

lemma pv_null (f : Nat) (x : List Char) :
    parseValue (f + 1) ('n' :: 'u' :: 'l' :: 'l' :: x) = some (.null, x) := rfl

lemma pv_true (f : Nat) (x : List Char) :
    parseValue (f + 1) ('t' :: 'r' :: 'u' :: 'e' :: x) = some (.bool true, x) := rfl

lemma pv_false (f : Nat) (x : List Char) :
    parseValue (f + 1) ('f' :: 'a' :: 'l' :: 's' :: 'e' :: x) = some (.bool false, x) := rfl

lemma pv_str (f : Nat) (x : List Char) :
    parseValue (f + 1) ('"' :: x) =
      (parseStringBody (x.length + 1) x).map fun p => (Json.str ⟨p.1⟩, p.2) := rfl

lemma pv_arr_nil (f : Nat) (x : List Char) :
    parseValue (f + 1) ('[' :: ']' :: x) = some (.arr [], x) := rfl

lemma pv_obj_nil (f : Nat) (x : List Char) :
    parseValue (f + 1) ('{' :: '}' :: x) = some (.obj [], x) := rfl

lemma pv_dash (f : Nat) (x : List Char) :
    parseValue (f + 1) ('-' :: x) =
      (parseNumBody ('-' :: x)).map fun p => (Json.num p.1, p.2) := rfl

lemma skipWs_cons_false {c : Char} (h : isWs c = false) (l : List Char) :
    skipWs (c :: l) = c :: l := by
  simp [skipWs, h]

lemma pv_digitCh (f k : Nat) (hk : k < 10) (x : List Char) :
    parseValue (f + 1) (digitCh k :: x) =
      (parseNumBody (digitCh k :: x)).map fun p => (Json.num p.1, p.2) := by
  obtain ⟨w1, w2, w3, w4, w5, w6, w7, _, _, _⟩ := digitCh_facts k hk
  have hdig := digitCh_isDigit k hk
  simp only [parseValue, skipWs_cons_false w1, w2, w3, w4, w5, w6, w7, hdig,
    ite_false, ite_true, or_true, if_neg, if_pos]

lemma pv_arr_cons (f : Nat) (c : Char) (x : List Char) (h1 : isWs c = false) (h2 : c ≠ ']') :
    parseValue (f + 1) ('[' :: c :: x) =
      (parseElems f (c :: x)).map fun p => (Json.arr p.1, p.2) := by
  have hws : isWs '[' = false := by decide
  simp only [parseValue, skipWs_cons_false hws, skipWs_cons_false h1]
  simp only [show ('[' = 'n') = False by simp, show ('[' = 't') = False by simp,
    show ('[' = 'f') = False by simp, show ('[' = '"') = False by simp,
    ite_false, ite_true, if_pos rfl]
  split
  · rename_i heq
    exact absurd (List.head_eq_of_cons_eq heq.symm).symm h2
  · rfl

lemma pv_obj_cons (f : Nat) (c : Char) (x : List Char) (h1 : isWs c = false)
    (h2 : c ≠ '}') :
    parseValue (f + 1) ('{' :: c :: x) =
      (parseFields f (c :: x)).map fun p => (Json.obj p.1, p.2) := by
  have hws : isWs ('{') = false := by decide
  simp only [parseValue, skipWs_cons_false hws, skipWs_cons_false h1]
  simp only [show ('{' = 'n') = False by decide,
    show ('{' = 't') = False by decide,
    show ('{' = 'f') = False by decide,
    show ('{' = '"') = False by decide,
    show ('{' = '[') = False by decide,
    ite_false, ite_true, if_pos rfl]
  split
  · rename_i heq
    exact absurd (List.head_eq_of_cons_eq heq.symm).symm h2
  · rfl

lemma renderArr_split (e : Json) (es : List Json) :
    ∃ t, Json.renderArr (e :: es) = Json.render e ++ t := by
  cases es with
  | nil => exact ⟨[], by simp [Json.renderArr]⟩
  | cons e2 es2 => exact ⟨',' :: Json.renderArr (e2 :: es2), by simp [Json.renderArr]⟩

lemma renderObj_head (kv : String × Json) (fs : List (String × Json)) :
    ∃ t, Json.renderObj (kv :: fs) = '"' :: t := by
  obtain ⟨k, v⟩ := kv
  cases fs with
  | nil => exact ⟨escChars k.data ++ '"' :: ':' :: Json.render v, by simp [Json.renderObj]⟩
  | cons kv2 fs2 =>
    exact ⟨escChars k.data ++ '"' :: ':' :: (Json.render v ++ ',' :: Json.renderObj (kv2 :: fs2)),
      by simp [Json.renderObj]⟩

lemma string_eta (s : String) : String.mk s.data = s := rfl

lemma psb_len_escChars (cs rest : List Char) :
    parseStringBody ((escChars cs ++ '"' :: rest).length + 1) (escChars cs ++ '"' :: rest) =
      some (cs, rest) := by
  apply parseStringBody_escChars
  have := escChars_length cs
  simp only [List.length_append, List.length_cons]
  omega

/-- Joint round-trip statement: with enough fuel, the parser consumes
exactly the rendering of a value (or of array elements / object fields)
and returns it, leaving any suffix intact. -/
theorem parse_render_aux : ∀ f : Nat,
    (∀ (v : Json) (rest : List Char), v.cost ≤ f →
      (v.isNum = true → headIsDigit rest = false) →
      parseValue f (v.render ++ rest) = some (v, rest)) ∧
    (∀ (es : List Json) (rest : List Char), es ≠ [] → Json.costList es ≤ f →
      parseElems f (Json.renderArr es ++ ']' :: rest) = some (es, rest)) ∧
    (∀ (fs : List (String × Json)) (rest : List Char), fs ≠ [] → Json.costFields fs ≤ f →
      parseFields f (Json.renderObj fs ++ '}' :: rest) = some (fs, rest)) := by
  intro f
  induction f with
  | zero =>
    refine ⟨fun v rest hc _ => absurd hc ?_, fun es rest hne hc => absurd hc ?_,
      fun fs rest hne hc => absurd hc ?_⟩
    · have := Json.cost_pos v; omega
    · have := Json.costList_pos es hne; omega
    · have := Json.costFields_pos fs hne; omega
  | succ f ih =>
    obtain ⟨ihv, ihe, ihf⟩ := ih
    refine ⟨?_, ?_, ?_⟩
    · intro v rest hc hnum
      cases v with
      | null =>
        simp only [Json.render, List.cons_append, List.nil_append]
        exact pv_null f rest
      | bool b =>
        cases b with
        | true =>
          simp only [Json.render, List.cons_append, List.nil_append]
          exact pv_true f rest
        | false =>
          simp only [Json.render, List.cons_append, List.nil_append]
          exact pv_false f rest
      | str s =>
        simp only [Json.render, List.cons_append, List.append_assoc, List.singleton_append,
          List.nil_append]
        rw [pv_str, psb_len_escChars]
        rfl
      | num n =>
        have hrest : headIsDigit rest = false := hnum rfl
        have hnb := parseNumBody_renderInt n rest hrest
        simp only [Json.render]
        rw [renderInt] at hnb ⊢
        by_cases hn : n < 0
        · rw [if_pos hn] at hnb ⊢
          rw [List.cons_append] at hnb ⊢
          rw [pv_dash, hnb]
          rfl
        · rw [if_neg hn] at hnb ⊢
          obtain ⟨k, ds, hk, hd, _, _⟩ := renderNat_spec n.toNat
          rw [hd, List.cons_append] at hnb ⊢
          rw [pv_digitCh f k hk, hnb]
          rfl
      | arr es =>
        cases es with
        | nil =>
          simp only [Json.render, Json.renderArr, List.nil_append, List.cons_append,
            List.singleton_append]
          exact pv_arr_nil f rest
        | cons e es =>
          have hcost : Json.costList (e :: es) ≤ f := by
            simp only [Json.cost] at hc; omega
          obtain ⟨c, l, hcl, hws, hbr1, _, _⟩ := render_head e
          obtain ⟨t, ht⟩ := renderArr_split e es
          simp only [Json.render, List.cons_append, List.append_assoc, List.singleton_append,
            List.nil_append]
          have hshape : Json.renderArr (e :: es) ++ ']' :: rest =
              c :: (l ++ (t ++ ']' :: rest)) := by
            rw [ht, hcl]
            simp [List.cons_append, List.append_assoc]
          rw [hshape, pv_arr_cons f c _ hws hbr1, ← hshape,
            ihe (e :: es) rest (by simp) hcost]
          rfl
      | obj fs =>
        cases fs with
        | nil =>
          simp only [Json.render, Json.renderObj, List.nil_append, List.cons_append,
            List.singleton_append]
          exact pv_obj_nil f rest
        | cons kv fs =>
          have hcost : Json.costFields (kv :: fs) ≤ f := by
            simp only [Json.cost] at hc; omega
          obtain ⟨t, ht⟩ := renderObj_head kv fs
          simp only [Json.render, List.cons_append, List.append_assoc, List.singleton_append,
            List.nil_append]
          have hshape : Json.renderObj (kv :: fs) ++ '}' :: rest =
              '"' :: (t ++ '}' :: rest) := by
            rw [ht]; simp [List.cons_append]
          rw [hshape, pv_obj_cons f '"' _ (by decide) (by decide), ← hshape,
            ihf (kv :: fs) rest (by simp) hcost]
          rfl
    · intro es rest hne hcost
      cases es with
      | nil => exact absurd rfl hne
      | cons e es =>
        have hce : e.cost ≤ f := by
          simp only [Json.costList] at hcost; omega
        cases es with
        | nil =>
          simp only [Json.renderArr, parseElems]
          rw [ihv e (']' :: rest) hce (fun _ => rfl)]
          simp [skipWs, isWs]
        | cons e2 es2 =>
          have hcost2 : Json.costList (e2 :: es2) ≤ f := by
            simp only [Json.costList] at hcost ⊢; omega
          simp only [Json.renderArr, parseElems, List.append_assoc, List.cons_append]
          rw [ihv e (',' :: (Json.renderArr (e2 :: es2) ++ ']' :: rest)) hce
            (fun _ => rfl)]
          simp [skipWs, isWs, ihe (e2 :: es2) rest (by simp) hcost2]
    · intro fs rest hne hcost
      cases fs with
      | nil => exact absurd rfl hne
      | cons kv fs =>
        obtain ⟨k, v⟩ := kv
        have hcv : v.cost ≤ f := by
          simp only [Json.costFields] at hcost; omega
        cases fs with
        | nil =>
          simp only [Json.renderObj, parseFields, List.cons_append, List.append_assoc]
          rw [psb_len_escChars]
          simp [skipWs, isWs, ihv v ('}' :: rest) hcv (fun _ => rfl), string_eta]
        | cons kv2 fs2 =>
          have hcost2 : Json.costFields (kv2 :: fs2) ≤ f := by
            simp only [Json.costFields] at hcost ⊢; omega
          obtain ⟨t2, ht2⟩ := renderObj_head kv2 fs2
          have hskY : skipWs (Json.renderObj (kv2 :: fs2) ++ '}' :: rest) =
              Json.renderObj (kv2 :: fs2) ++ '}' :: rest := by
            rw [ht2, List.cons_append]
            exact skipWs_cons_false (by decide) _
          simp only [Json.renderObj, parseFields, List.cons_append, List.append_assoc]
          rw [psb_len_escChars]
          simp [skipWs, isWs,
            ihv v (',' :: (Json.renderObj (kv2 :: fs2) ++ '}' :: rest)) hcv (fun _ => rfl),
            hskY, ihf (kv2 :: fs2) rest (by simp) hcost2, string_eta]

lemma renderInt_length_pos (n : Int) : 1 ≤ (renderInt n).length := by
  rw [renderInt]
  split
  · simp
  · obtain ⟨k, ds, _, hd, _, _⟩ := renderNat_spec n.toNat
    rw [hd]; simp

mutual

theorem cost_le_renderLen (v : Json) : v.cost ≤ v.render.length := by
  cases v with
  | null => simp [Json.cost, Json.render]
  | bool b => cases b <;> simp [Json.cost, Json.render]
  | num n => have := renderInt_length_pos n; simp only [Json.cost, Json.render]; omega
  | str s => simp [Json.cost, Json.render]
  | arr es =>
    cases es with
    | nil => simp [Json.cost, Json.costList, Json.render, Json.renderArr]
    | cons e es2 =>
      have h := costList_le_renderArrLen (e :: es2)
      simp only [Json.cost, Json.render, List.length_cons, List.length_append,
        List.length_singleton] at h ⊢
      omega
  | obj fs =>
    cases fs with
    | nil => simp [Json.cost, Json.costFields, Json.render, Json.renderObj]
    | cons kv fs2 =>
      have h := costFields_le_renderObjLen (kv :: fs2)
      simp only [Json.cost, Json.render, List.length_cons, List.length_append,
        List.length_singleton] at h ⊢
      omega

theorem costList_le_renderArrLen (es : List Json) :
    Json.costList es ≤ (Json.renderArr es).length + 1 := by
  cases es with
  | nil => simp [Json.costList, Json.renderArr]
  | cons e es2 =>
    have h1 := cost_le_renderLen e
    cases es2 with
    | nil =>
      simp only [Json.costList, Json.renderArr, List.length_cons]
      omega
    | cons e3 es3 =>
      have h2 := costList_le_renderArrLen (e3 :: es3)
      simp only [Json.costList] at h2 ⊢
      simp only [Json.renderArr, List.length_append, List.length_cons]
      omega

theorem costFields_le_renderObjLen (fs : List (String × Json)) :
    Json.costFields fs ≤ (Json.renderObj fs).length + 1 := by
  cases fs with
  | nil => simp [Json.costFields, Json.renderObj]
  | cons kv fs2 =>
    obtain ⟨k, v⟩ := kv
    have h1 := cost_le_renderLen v
    cases fs2 with
    | nil =>
      simp only [Json.costFields, Json.renderObj, List.length_append, List.length_cons]
      omega
    | cons kv2 fs3 =>
      have h2 := costFields_le_renderObjLen (kv2 :: fs3)
      simp only [Json.costFields] at h2 ⊢
      simp only [Json.renderObj, List.length_append, List.length_cons]
      omega

end

/-- Parsing the rendering of any JSON value recovers it exactly. -/
theorem parseJson_render (v : Json) : parseJson (String.mk v.render) = some v := by
  have h := (parse_render_aux (v.render.length + 1)).1 v []
    (le_trans (cost_le_renderLen v) (by omega)) (fun _ => rfl)
  rw [List.append_nil] at h
  unfold parseJson
  rw [mk_data, h]
  simp [skipWs]

/-! ### Accessors of serde_json::Value used by the client -/

/-- Value::get on an object (field lookup); none on any other value. -/
def Json.get (j : Json) (key : String) : Option Json :=
  match j with
  | .obj fs => fs.lookup key
  | _ => none

/-- Value::as_str. -/
def Json.asStr : Json → Option String
  | .str s => some s
  | _ => none

/-- Extraction of an i64 field, as serde's derived Deserialize does for
`command_id: i64`. -/
def Json.asInt64 : Json → Option Int
  | .num n => if -(2 ^ 63) ≤ n ∧ n < 2 ^ 63 then some n else none
  | _ => none

def Json.isObj : Json → Bool
  | .obj _ => true
  | _ => false

/-! ### The client (src/lib.rs) -/

/-- serialise_void: `format!("\x7b\x7b'\x7bcommand\x7d':0\x7d\x7d")` — the command
name wrapped in single quotes, mapped to the literal 0. -/
def serialise_void (command : String) : String :=
  "\x7b\x27" ++ command ++ "\x27:0\x7d"

/-- The string-argument command text built by Client::command_str:
`format!("\x7b\x7b'\x7bcommand\x7d':'\x7barg\x7d'\x7d\x7d")`. -/
def commandStrPayload (command arg : String) : String :=
  "\x7b\x27" ++ command ++ "\x27:\x27" ++ arg ++ "\x27\x7d"

/-- The inner message object built by Client::raw_message_inner with the
json! macro.  serde_json's default map is ordered by key, so to_string
emits "COMMANDS" before "token" and "COMMAND" before "COMMANDID". -/
def innerMessage (token msg : String) : Json :=
  .obj [("COMMANDS", .arr [.obj [("COMMAND", .str msg), ("COMMANDID", .num 1)]]),
        ("token", .str token)]

/-- serde_json::to_string of the inner message — the `middle` string. -/
def middleString (token msg : String) : String :=
  String.mk (innerMessage token msg).render

/-- The outer envelope object: `message_type` plus the inner message
embedded as a JSON string ("message" sorts before "message_type"). -/
def outerMessage (token msg : String) : Json :=
  .obj [("message", .str (middleString token msg)),
        ("message_type", .str "hm_get_command_queue")]

/-- The text frame raw_message_inner feeds to the websocket. -/
def toSend (token msg : String) : String :=
  String.mk (outerMessage token msg).render

/-- The inbound envelope struct CommandResponse. -/
structure CommandResponse where
  command_id : Int
  device_id : String
  message_type : String
  response : String
deriving DecidableEq

/-- serde's derived Deserialize for CommandResponse: the frame must be an
object carrying all four fields with the right types; unknown fields are
ignored. -/
def commandResponseFromJson (j : Json) : Option CommandResponse := do
  let cid ← (j.get "command_id").bind Json.asInt64
  let did ← (j.get "device_id").bind Json.asStr
  let mt ← (j.get "message_type").bind Json.asStr
  let resp ← (j.get "response").bind Json.asStr
  pure ⟨cid, did, mt, resp⟩

/-- serde_json::from_slice::<CommandResponse> on a text frame. -/
def parseCommandResponse (s : String) : Option CommandResponse :=
  (parseJson s).bind commandResponseFromJson

/-- The error taxonomy of the client (anyhow errors, distinguished by
the context/message they carry in the source). -/
inductive NeoError where
  | timeoutErr (context : String)
  | noResponse
  | wsError (context : String)
  | deserError (frame : String)
  | protocolErr (message_type : String) (command_id : Int)
  | payloadError (raw : String)
deriving DecidableEq

/-- The websocket stream state visible to the client: frames already
sent, and the queue of incoming items (a frame, or a transport error). -/
structure Conn where
  sent : List String
  incoming : List (Except String String)

/-- The Client struct: token, connection, timeout (milliseconds). -/
structure ClientSt where
  token : String
  conn : Conn
  timeout : Nat

/-- Client::raw_message_inner: serialize the double envelope, feed and
flush it, await one incoming item, deserialize it as a CommandResponse,
and validate `message_type == "hm_set_command_response" && command_id == 1`;
on success return (device_id, response). -/
def rawMessageInnerSt (st : ClientSt) (msg : String) :
    ClientSt × Except NeoError (String × String) :=
  let frame := toSend st.token msg
  let conn1 : Conn := ⟨st.conn.sent ++ [frame], st.conn.incoming⟩
  match conn1.incoming with
  | [] => (⟨st.token, conn1, st.timeout⟩, .error .noResponse)
  | item :: restIn =>
    let st2 : ClientSt := ⟨st.token, ⟨conn1.sent, restIn⟩, st.timeout⟩
    match item with
    | .error e => (st2, .error (.wsError e))
    | .ok buf =>
      match parseCommandResponse buf with
      | none => (st2, .error (.deserError buf))
      | some resp =>
        if resp.message_type = "hm_set_command_response" ∧ resp.command_id = 1 then
          (st2, .ok (resp.device_id, resp.response))
        else
          (st2, .error (.protocolErr resp.message_type resp.command_id))

/-- Client::raw_message is the timeout wrapper around raw_message_inner;
its state effects are those of the inner call (the timing behaviour is
modelled separately by rawMessageFull below). -/
def rawMessageSt (st : ClientSt) (msg : String) :
    ClientSt × Except NeoError (String × String) :=
  rawMessageInnerSt st msg

/-- Client::command_void with T = serde_json::Value. -/
def commandVoidSt (st : ClientSt) (command : String) : ClientSt × Except NeoError Json :=
  match rawMessageSt st (serialise_void command) with
  | (st2, .error e) => (st2, .error e)
  | (st2, .ok (_, resp)) =>
    match parseJson resp with
    | some j => (st2, .ok j)
    | none => (st2, .error (.payloadError resp))

/-- Client::command_str with T = serde_json::Value. -/
def commandStrSt (st : ClientSt) (command arg : String) : ClientSt × Except NeoError Json :=
  match rawMessageSt st (commandStrPayload command arg) with
  | (st2, .error e) => (st2, .error e)
  | (st2, .ok (_, resp)) =>
    match parseJson resp with
    | some j => (st2, .ok j)
    | none => (st2, .error (.payloadError resp))

/-- The Identity struct. -/
structure Identity where
  device_id : String
  firmware_version : Option String
deriving DecidableEq

/-- Client::identify: exchange the FIRMWARE void command, parse the
response as a serde_json::Value, and best-effort extract the
"firmware version" string field. -/
def identifySt (st : ClientSt) : ClientSt × Except NeoError Identity :=
  match rawMessageSt st (serialise_void "FIRMWARE") with
  | (st2, .error e) => (st2, .error e)
  | (st2, .ok (dev, resp)) =>
    match parseJson resp with
    | none => (st2, .error (.payloadError resp))
    | some fw => (st2, .ok ⟨dev, (fw.get "firmware version").bind Json.asStr⟩)

/-! ### Timing model for the timeout wrapper

`tokio::time::timeout(self.timeout, self.raw_message_inner(msg))` gives
the whole inner future — write, flush and the wait for the reply — one
shared budget measured from the start of the call. -/

/-- Durations of the suspension points inside raw_message_inner: the
send, the flush, and the wait for the next incoming frame (none if no
frame ever arrives). -/
structure ExchangeTiming where
  sendDur : Nat
  flushDur : Nat
  replyWait : Option Nat
deriving DecidableEq

/-- Completion time of the inner future, when it completes at all. -/
def innerDuration (t : ExchangeTiming) : Option Nat :=
  t.replyWait.map fun w => t.sendDur + t.flushDur + w

/-- tokio::time::timeout around a future with the given completion time:
the result if it completes within the budget, otherwise the Elapsed
error, wrapped by raw_message's "timeout sending raw message" context. -/
def timeoutWrap (budget : Nat) (t : ExchangeTiming)
    (res : Except NeoError (String × String)) : Except NeoError (String × String) :=
  match innerDuration t with
  | some d => if d ≤ budget then res else .error (.timeoutErr "timeout sending raw message")
  | none => .error (.timeoutErr "timeout sending raw message")

/-- Client::raw_message including its timing behaviour: the configured
session timeout bounds the inner exchange as one budget. -/
def rawMessageFull (st : ClientSt) (msg : String) (t : ExchangeTiming) :
    Except NeoError (String × String) :=
  timeoutWrap st.timeout t (rawMessageInnerSt st msg).2

/-! ### Characterisation lemmas for the session operations -/

/-- When the next incoming item is a frame that deserializes to `resp`,
raw_message_inner sends the envelope and returns according to the
message_type/command_id validation. -/
lemma rawMessageInnerSt_ok_frame (st : ClientSt) (msg frame : String)
    (restIn : List (Except String String)) (resp : CommandResponse)
    (h1 : st.conn.incoming = .ok frame :: restIn)
    (h2 : parseCommandResponse frame = some resp) :
    rawMessageInnerSt st msg =
      (⟨st.token, ⟨st.conn.sent ++ [toSend st.token msg], restIn⟩, st.timeout⟩,
       if resp.message_type = "hm_set_command_response" ∧ resp.command_id = 1 then
         .ok (resp.device_id, resp.response)
       else .error (.protocolErr resp.message_type resp.command_id)) := by
  by_cases hcond : resp.message_type = "hm_set_command_response" ∧ resp.command_id = 1
  · simp [rawMessageInnerSt, h1, h2, hcond]
  · simp [rawMessageInnerSt, h1, h2, hcond]

/-- The session operations never touch the token or the timeout. -/
lemma rawMessageSt_frame (st : ClientSt) (msg : String) :
    (rawMessageSt st msg).1.token = st.token ∧
      (rawMessageSt st msg).1.timeout = st.timeout := by
  obtain ⟨tok, ⟨sent, inc⟩, tmo⟩ := st
  cases inc with
  | nil => simp [rawMessageSt, rawMessageInnerSt]
  | cons it rest =>
    cases it with
    | error e => simp [rawMessageSt, rawMessageInnerSt]
    | ok buf =>
      cases hpc : parseCommandResponse buf with
      | none => simp [rawMessageSt, rawMessageInnerSt, hpc]
      | some resp =>
        by_cases hcond : resp.message_type = "hm_set_command_response" ∧ resp.command_id = 1
        · simp [rawMessageSt, rawMessageInnerSt, hpc, hcond]
        · simp [rawMessageSt, rawMessageInnerSt, hpc, hcond]

/-- When the exchange succeeds and the response payload is valid JSON,
identify returns the device id with the best-effort firmware field. -/
lemma identifySt_ok (st : ClientSt) (dev resp : String) (j : Json)
    (h1 : (rawMessageSt st (serialise_void "FIRMWARE")).2 = .ok (dev, resp))
    (h2 : parseJson resp = some j) :
    (identifySt st).2 = .ok ⟨dev, (j.get "firmware version").bind Json.asStr⟩ := by
  unfold identifySt
  rcases hraw : rawMessageSt st (serialise_void "FIRMWARE") with ⟨st2, r⟩
  rw [hraw] at h1
  dsimp only at h1
  cases r with
  | error e => simp at h1
  | ok pr =>
    obtain ⟨d2, r2⟩ := pr
    injection h1 with h1
    injection h1 with hd hr
    subst hd; subst hr
    simp [h2]

lemma Json.get_of_not_obj (j : Json) (h : j.isObj = false) (key : String) :
    j.get key = none := by
  cases j <;> simp_all [Json.isObj, Json.get]

/-! ### Claim theorems -/

/-- Claim C1: for every command text and token, raw_message sends a single
outer JSON object with message_type "hm_get_command_queue" whose "message"
field is a JSON-encoded string (not a nested object) that, when itself
parsed, equals the token/COMMANDS object with COMMANDID 1; in particular,
for token "abc123" and command "FIRMWARE" the inner message string
deserializes to the expected object. -/
theorem claim_C1_outbound_envelope :
    (∀ token msg : String,
      parseJson (toSend token msg) = some (outerMessage token msg) ∧
      (outerMessage token msg).get "message_type" = some (.str "hm_get_command_queue") ∧
      (outerMessage token msg).get "message" = some (.str (middleString token msg)) ∧
      parseJson (middleString token msg) = some (innerMessage token msg) ∧
      (innerMessage token msg).get "token" = some (.str token) ∧
      (innerMessage token msg).get "COMMANDS" =
        some (.arr [.obj [("COMMAND", .str msg), ("COMMANDID", .num 1)]])) ∧
    parseJson (middleString "abc123" "FIRMWARE") =
      some (.obj [("COMMANDS",
          .arr [.obj [("COMMAND", .str "FIRMWARE"), ("COMMANDID", .num 1)]]),
        ("token", .str "abc123")]) := by
  refine ⟨fun token msg => ⟨parseJson_render _, rfl, rfl, parseJson_render _, rfl, rfl⟩, ?_⟩
  exact parseJson_render (innerMessage "abc123" "FIRMWARE")

/-- Claim C8: for every command text and token, serializing the outbound
envelope's inner message and parsing it back recovers exactly the original
token and command structure. -/
theorem claim_C8_inner_roundtrip (token msg : String) :
    parseJson (middleString token msg) = some (innerMessage token msg) :=
  parseJson_render (innerMessage token msg)

/-- Claim C2: a reply is accepted (returning device_id and response) iff
its message_type is "hm_set_command_response" and its command_id is the
fixed tag 1; any other message_type is rejected regardless of command_id,
and the right message_type with a command_id other than 1 is rejected. -/
theorem claim_C2_reply_validation (st : ClientSt) (msg frame : String)
    (restIn : List (Except String String)) (resp : CommandResponse)
    (h1 : st.conn.incoming = .ok frame :: restIn)
    (h2 : parseCommandResponse frame = some resp) :
    ((rawMessageSt st msg).2 = .ok (resp.device_id, resp.response) ↔
      resp.message_type = "hm_set_command_response" ∧ resp.command_id = 1) ∧
    (resp.message_type ≠ "hm_set_command_response" →
      (rawMessageSt st msg).2 = .error (.protocolErr resp.message_type resp.command_id)) ∧
    (resp.message_type = "hm_set_command_response" → resp.command_id ≠ 1 →
      (rawMessageSt st msg).2 = .error (.protocolErr resp.message_type resp.command_id)) := by
  have hch := rawMessageInnerSt_ok_frame st msg frame restIn resp h1 h2
  have hres : (rawMessageSt st msg).2 =
      if resp.message_type = "hm_set_command_response" ∧ resp.command_id = 1 then
        .ok (resp.device_id, resp.response)
      else .error (.protocolErr resp.message_type resp.command_id) := by
    rw [rawMessageSt, hch]
  by_cases hcond : resp.message_type = "hm_set_command_response" ∧ resp.command_id = 1
  · rw [hres, if_pos hcond]
    exact ⟨⟨fun _ => hcond, fun _ => rfl⟩,
      fun hmt => absurd hcond.1 hmt,
      fun _ hid => absurd hcond.2 hid⟩
  · rw [hres, if_neg hcond]
    refine ⟨⟨fun h => absurd h (by simp), fun h => absurd h hcond⟩, fun _ => rfl, fun _ _ => rfl⟩

set_option maxRecDepth 8000 in
/-- Claim C2 witness: a frame with message_type "bogus" and command_id 1
is rejected with a protocol error. -/
theorem claim_C2_reply_validation_witness :
    parseCommandResponse
        "\x7b\"command_id\":1,\"device_id\":\"aa\",\"message_type\":\"bogus\",\"response\":\"r\"\x7d"
      = some ⟨1, "aa", "bogus", "r"⟩ ∧
    (rawMessageSt
        ⟨"tok",
         ⟨[], [.ok "\x7b\"command_id\":1,\"device_id\":\"aa\",\"message_type\":\"bogus\",\"response\":\"r\"\x7d"]⟩,
         15000⟩ "CMD").2 = .error (.protocolErr "bogus" 1) :=
  ⟨rfl,
   (claim_C2_reply_validation _ "CMD"
      "\x7b\"command_id\":1,\"device_id\":\"aa\",\"message_type\":\"bogus\",\"response\":\"r\"\x7d"
      [] ⟨1, "aa", "bogus", "r"⟩ rfl rfl).2.1 (by decide)⟩

/-- Claim C3 (code bug): command_str builds its payload with single-quote
string formatting, so for name "SET_PROFILE" and argument "Winter" the
payload is the text with single quotes, which is not syntactically valid
JSON (the parser rejects it). -/
theorem claim_C3_payload_not_json :
    commandStrPayload "SET_PROFILE" "Winter" = "\x7b\x27SET_PROFILE\x27:\x27Winter\x27\x7d" ∧
    parseJson (commandStrPayload "SET_PROFILE" "Winter") = none :=
  ⟨rfl, rfl⟩

/-- Claim C4 counterexample: the void command "AWAY_ON" is not encoded as
the JSON object text with double quotes, and its encoding is not valid
JSON at all. -/
theorem claim_C4_counterexample :
    serialise_void "AWAY_ON" ≠ "\x7b\"AWAY_ON\":0\x7d" ∧
    parseJson (serialise_void "AWAY_ON") = none :=
  ⟨by decide, rfl⟩

/-- Claim C4 (amended): the void-command shape maps the command name to
the literal 0 using single-quote formatting: "AWAY_ON" encodes as the
text with single quotes, and every name is wrapped the same way. -/
theorem claim_C4_amended :
    serialise_void "AWAY_ON" = "\x7b\x27AWAY_ON\x27:0\x7d" ∧
    ∀ name : String, serialise_void name = "\x7b\x27" ++ name ++ "\x27:0\x7d" :=
  ⟨rfl, fun _ => rfl⟩

/-- Claim C5: raw_message wraps the whole inner exchange — send, flush
and the wait for the reply — in one timeout budget (the session timeout)
measured from the start of the call: if no reply arrives in time the call
fails with the timeout-classified error (never a stale value), sub-step
durations individually within budget do not help, and only when the sum
fits does the call return the inner result. -/
theorem claim_C5_timeout_budget (st : ClientSt) (msg : String) (t : ExchangeTiming) :
    (t.replyWait = none →
      rawMessageFull st msg t = .error (.timeoutErr "timeout sending raw message")) ∧
    (∀ w, t.replyWait = some w → st.timeout < t.sendDur + t.flushDur + w →
      rawMessageFull st msg t = .error (.timeoutErr "timeout sending raw message")) ∧
    (∀ w, t.replyWait = some w → t.sendDur + t.flushDur + w ≤ st.timeout →
      rawMessageFull st msg t = (rawMessageInnerSt st msg).2) := by
  refine ⟨fun hw => ?_, fun w hw hover => ?_, fun w hw hin => ?_⟩
  · simp [rawMessageFull, timeoutWrap, innerDuration, hw]
  · have hx : ¬(t.sendDur + t.flushDur + w ≤ st.timeout) := by omega
    simp [rawMessageFull, timeoutWrap, innerDuration, hw, hx]
  · simp [rawMessageFull, timeoutWrap, innerDuration, hw, hin]

/-- Claim C5 witness: with budget 10 and sub-step durations 4, 4 and a
reply wait of 4 — each individually within the budget — the exchange
still times out, because the single budget spans them together. -/
theorem claim_C5_timeout_budget_witness :
    (4 ≤ 10 ∧ 4 ≤ 10 ∧ 4 ≤ 10) ∧
    rawMessageFull ⟨"tok", ⟨[], []⟩, 10⟩ "CMD" ⟨4, 4, some 4⟩ =
      .error (.timeoutErr "timeout sending raw message") :=
  ⟨⟨by omega, by omega, by omega⟩,
   (claim_C5_timeout_budget ⟨"tok", ⟨[], []⟩, 10⟩ "CMD" ⟨4, 4, some 4⟩).2.1 4 rfl (by decide)⟩

/-- Claim C6: when the exchange behind identify succeeds and the unwrapped
response payload is a JSON object lacking the "firmware version" field,
identify succeeds with firmware_version = none rather than erroring. -/
theorem claim_C6_identify_missing_field (st : ClientSt) (dev resp : String) (j : Json)
    (h1 : (rawMessageSt st (serialise_void "FIRMWARE")).2 = .ok (dev, resp))
    (h2 : parseJson resp = some j) (_hobj : j.isObj = true)
    (hmiss : j.get "firmware version" = none) :
    (identifySt st).2 = .ok ⟨dev, none⟩ := by
  rw [identifySt_ok st dev resp j h1 h2, hmiss]
  rfl

set_option maxRecDepth 8000 in
/-- Claim C6 witness: a well-formed reply whose response payload is the
empty object makes identify return the device id with no firmware
version. -/
theorem claim_C6_identify_missing_field_witness :
    (identifySt
        ⟨"tok",
         ⟨[], [.ok "\x7b\"command_id\":1,\"device_id\":\"aa\",\"message_type\":\"hm_set_command_response\",\"response\":\"\x7b\x7d\"\x7d"]⟩,
         15000⟩).2 = .ok ⟨"aa", none⟩ :=
  claim_C6_identify_missing_field
    ⟨"tok",
     ⟨[], [.ok "\x7b\"command_id\":1,\"device_id\":\"aa\",\"message_type\":\"hm_set_command_response\",\"response\":\"\x7b\x7d\"\x7d"]⟩,
     15000⟩ "aa" "\x7b\x7d" (.obj []) rfl rfl rfl rfl

set_option maxRecDepth 8000 in
/-- Claim C7: on the documented inbound frame carrying device id
00:11:22:33:44:55 and a response payload with firmware version 1.2.3,
identify returns exactly that Identity. -/
theorem claim_C7_identify_scenario :
    (identifySt
        ⟨"tok",
         ⟨[], [.ok "\x7b\"command_id\":1,\"device_id\":\"00:11:22:33:44:55\",\"message_type\":\"hm_set_command_response\",\"response\":\"\x7b\\\"firmware version\\\":\\\"1.2.3\\\"\x7d\"\x7d"]⟩,
         15000⟩).2 = .ok ⟨"00:11:22:33:44:55", some "1.2.3"⟩ := rfl

/-- Claim C9: the non-consuming session operations (raw_message,
command_void, command_str, identify) preserve the session's token and
configured timeout, whatever their outcome; only the connection changes. -/
theorem claim_C9_frame_token_timeout (st : ClientSt) (msg cmd arg : String) :
    ((rawMessageSt st msg).1.token = st.token ∧
      (rawMessageSt st msg).1.timeout = st.timeout) ∧
    ((commandVoidSt st cmd).1.token = st.token ∧
      (commandVoidSt st cmd).1.timeout = st.timeout) ∧
    ((commandStrSt st cmd arg).1.token = st.token ∧
      (commandStrSt st cmd arg).1.timeout = st.timeout) ∧
    ((identifySt st).1.token = st.token ∧
      (identifySt st).1.timeout = st.timeout) := by
  refine ⟨rawMessageSt_frame st msg, ?_, ?_, ?_⟩
  · rcases hraw : rawMessageSt st (serialise_void cmd) with ⟨st2, r⟩
    have hp := rawMessageSt_frame st (serialise_void cmd)
    rw [hraw] at hp
    cases r with
    | error e => simp [commandVoidSt, hraw]; exact hp
    | ok pr =>
      cases hj : parseJson pr.2 with
      | none => simp [commandVoidSt, hraw, hj]; exact hp
      | some j => simp [commandVoidSt, hraw, hj]; exact hp
  · rcases hraw : rawMessageSt st (commandStrPayload cmd arg) with ⟨st2, r⟩
    have hp := rawMessageSt_frame st (commandStrPayload cmd arg)
    rw [hraw] at hp
    cases r with
    | error e => simp [commandStrSt, hraw]; exact hp
    | ok pr =>
      cases hj : parseJson pr.2 with
      | none => simp [commandStrSt, hraw, hj]; exact hp
      | some j => simp [commandStrSt, hraw, hj]; exact hp
  · rcases hraw : rawMessageSt st (serialise_void "FIRMWARE") with ⟨st2, r⟩
    have hp := rawMessageSt_frame st (serialise_void "FIRMWARE")
    rw [hraw] at hp
    cases r with
    | error e => simp [identifySt, hraw]; exact hp
    | ok pr =>
      cases hj : parseJson pr.2 with
      | none => simp [identifySt, hraw, hj]; exact hp
      | some j => simp [identifySt, hraw, hj]; exact hp

/-- Claim C10: identify also yields firmware_version = none (not an error)
when the field is present but not a JSON string, or when the response
payload is not an object at all; any valid-JSON payload gives a
successful Identity. -/
theorem claim_C10_identify_lenient (st : ClientSt) (dev resp : String) (j : Json)
    (h1 : (rawMessageSt st (serialise_void "FIRMWARE")).2 = .ok (dev, resp))
    (h2 : parseJson resp = some j) :
    ((identifySt st).2 = .ok ⟨dev, (j.get "firmware version").bind Json.asStr⟩) ∧
    (j.isObj = false → (identifySt st).2 = .ok ⟨dev, none⟩) ∧
    (∀ v, j.get "firmware version" = some v → v.asStr = none →
      (identifySt st).2 = .ok ⟨dev, none⟩) := by
  have hok := identifySt_ok st dev resp j h1 h2
  refine ⟨hok, fun hno => ?_, fun v hv hvs => ?_⟩
  · rw [hok, Json.get_of_not_obj j hno]
    rfl
  · rw [hok, hv]
    simp [hvs]

set_option maxRecDepth 8000 in
/-- Claim C10 witness: a reply whose response payload is the bare numeral
7 (valid JSON but not an object) still yields a successful Identity with
no firmware version. -/
theorem claim_C10_identify_lenient_witness :
    (identifySt
        ⟨"tok",
         ⟨[], [.ok "\x7b\"command_id\":1,\"device_id\":\"aa\",\"message_type\":\"hm_set_command_response\",\"response\":\"7\"\x7d"]⟩,
         15000⟩).2 = .ok ⟨"aa", none⟩ :=
  (claim_C10_identify_lenient
     ⟨"tok",
      ⟨[], [.ok "\x7b\"command_id\":1,\"device_id\":\"aa\",\"message_type\":\"hm_set_command_response\",\"response\":\"7\"\x7d"]⟩,
      15000⟩ "aa" "7" (.num 7) rfl rfl).2.1 rfl

end Neohub
